import Mathlib

/-!
# PLRelational: the SQLite FTS3 tokenizer declarations

`PLRelational/Modules/SQLiteTokenizerAPI.h` declares three struct types and
`PLRelational/Modules/module-sqlite3-include.h` joins that header with the
system `<sqlite3.h>`.  Neither file contains executable code, so the
embedding below represents the declarations as data (C types, members,
struct bodies, top-level items) and the properties are stated over
functions that compute on that data: typedef resolution, member lookup,
member offsets, version gating, include expansion.

The callbacks that the header declares are implemented outside these two
files.  The one behavioural property of the spec, about a tokenizer that
returns one token per whitespace-delimited word, is stated over a model of
that tokenizer written from the spec and from the contract in the header's
comments.
-/

namespace PLRelational

/-! ## C declarations -/

/-- The object types that the two headers use. -/
inductive CType where
  | int
  | char
  | named (name : String)
  | structTag (tag : String)
  | const (t : CType)
  | ptr (t : CType)
  deriving DecidableEq

/-- A function parameter: its type, its name and the trailing comment that the
header writes next to it (empty when there is none; a comment that closes a
line with two parameters is recorded on both). -/
structure Param where
  ty : CType
  name : String
  comment : String
  deriving DecidableEq

/-- A struct member: either a data member `ty name;` or a function-pointer
member `ret (*name)(params);`. -/
inductive Member where
  | field (ty : CType) (name : String)
  | method (ret : CType) (name : String) (params : List Param)
  deriving DecidableEq

/-- One item of a struct body.  Besides members, the body of
`sqlite3_tokenizer_module` holds a divider comment, "Methods below this point
are only available if iVersion>=1.", recorded as `availableFrom 1`. -/
inductive BodyItem where
  | member (m : Member)
  | availableFrom (minVersion : Int)
  deriving DecidableEq

/-- A top-level item of a header, comments left out. -/
inductive TopLevel where
  | incl (angle : Bool) (file : String)
  | define (name : String)
  | typedef (ty : CType) (name : String)
  | structDef (tag : String) (body : List BodyItem)
  | function (ret : CType) (name : String) (params : List Param)
  | object (ty : CType) (name : String)
  | other (text : String)
  deriving DecidableEq

/-! ## SQLiteTokenizerAPI.h -/

/-- Body of `struct sqlite3_tokenizer_module` (SQLiteTokenizerAPI.h, lines 14-107). -/
def sqlite3_tokenizer_module : List BodyItem :=
  [ .member (.field .int "iVersion"),
    .member (.method .int "xCreate"
      [ ⟨.int, "argc", "Size of argv array"⟩,
        ⟨.ptr (.const (.ptr (.const .char))), "argv", "Tokenizer argument strings"⟩,
        ⟨.ptr (.ptr (.named "sqlite3_tokenizer")), "ppTokenizer", "OUT: Created tokenizer"⟩ ]),
    .member (.method .int "xDestroy"
      [ ⟨.ptr (.named "sqlite3_tokenizer"), "pTokenizer", ""⟩ ]),
    .member (.method .int "xOpen"
      [ ⟨.ptr (.named "sqlite3_tokenizer"), "pTokenizer", "Tokenizer object"⟩,
        ⟨.ptr (.const .char), "pInput", "Input buffer"⟩,
        ⟨.int, "nBytes", "Input buffer"⟩,
        ⟨.ptr (.ptr (.named "sqlite3_tokenizer_cursor")), "ppCursor",
          "OUT: Created tokenizer cursor"⟩ ]),
    .member (.method .int "xClose"
      [ ⟨.ptr (.named "sqlite3_tokenizer_cursor"), "pCursor", ""⟩ ]),
    .member (.method .int "xNext"
      [ ⟨.ptr (.named "sqlite3_tokenizer_cursor"), "pCursor", "Tokenizer cursor"⟩,
        ⟨.ptr (.ptr (.const .char)), "ppToken", "OUT: Normalized text for token"⟩,
        ⟨.ptr .int, "pnBytes", "OUT: Normalized text for token"⟩,
        ⟨.ptr .int, "piStartOffset", "OUT: Byte offset of token in input buffer"⟩,
        ⟨.ptr .int, "piEndOffset", "OUT: Byte offset of end of token in input buffer"⟩,
        ⟨.ptr .int, "piPosition", "OUT: Number of tokens returned before this one"⟩ ]),
    .availableFrom 1,
    .member (.method .int "xLanguageid"
      [ ⟨.ptr (.named "sqlite3_tokenizer_cursor"), "pCsr", ""⟩,
        ⟨.int, "iLangid", ""⟩ ]) ]

/-- Body of `struct sqlite3_tokenizer` (lines 109-112). -/
def sqlite3_tokenizer : List BodyItem :=
  [ .member (.field (.ptr (.const (.named "sqlite3_tokenizer_module"))) "pModule") ]

/-- Body of `struct sqlite3_tokenizer_cursor` (lines 114-117). -/
def sqlite3_tokenizer_cursor : List BodyItem :=
  [ .member (.field (.ptr (.named "sqlite3_tokenizer")) "pTokenizer") ]

/-- The top-level items of SQLiteTokenizerAPI.h in source order: three
typedefs (lines 10-12) and three struct definitions. -/
def SQLiteTokenizerAPI_h : List TopLevel :=
  [ .typedef (.structTag "sqlite3_tokenizer_module") "sqlite3_tokenizer_module",
    .typedef (.structTag "sqlite3_tokenizer") "sqlite3_tokenizer",
    .typedef (.structTag "sqlite3_tokenizer_cursor") "sqlite3_tokenizer_cursor",
    .structDef "sqlite3_tokenizer_module" sqlite3_tokenizer_module,
    .structDef "sqlite3_tokenizer" sqlite3_tokenizer,
    .structDef "sqlite3_tokenizer_cursor" sqlite3_tokenizer_cursor ]

/-! ## Functions over declarations -/

/-- The members of a struct body in declaration order. -/
def members : List BodyItem → List Member
  | [] => []
  | .member m :: rest => m :: members rest
  | .availableFrom _ :: rest => members rest

/-- Name of a member. -/
def Member.name : Member → String
  | .field _ n => n
  | .method _ n _ => n

/-- A member with parameter names and comments erased: what is left is what
fixes the binary layout and the calling convention. -/
inductive MemberSig where
  | field (ty : CType) (name : String)
  | method (ret : CType) (name : String) (params : List CType)
  deriving DecidableEq

/-- Erases parameter names and comments. -/
def Member.sig : Member → MemberSig
  | .field t n => .field t n
  | .method r n ps => .method r n (ps.map Param.ty)

/-- The definition of `struct tag` in a header, if the header has one. -/
def structBody : List TopLevel → String → Option (List BodyItem)
  | [], _ => none
  | .structDef t b :: rest, tag => if t = tag then some b else structBody rest tag
  | _ :: rest, tag => structBody rest tag

/-- What a typedef name stands for in a header. -/
def typedefOf : List TopLevel → String → Option CType
  | [], _ => none
  | .typedef t n :: rest, name => if n = name then some t else typedefOf rest name
  | _ :: rest, name => typedefOf rest name

/-- Replaces every typedef name in a type by its definition; `none` when a
name is not declared by the header. -/
def resolve (h : List TopLevel) : CType → Option CType
  | .int => some .int
  | .char => some .char
  | .named n => typedefOf h n
  | .structTag t => some (.structTag t)
  | .const t => (resolve h t).map .const
  | .ptr t => (resolve h t).map .ptr

/-- The declared type of the data member `name` of a struct body. -/
def fieldType : List Member → String → Option CType
  | [], _ => none
  | .field t n :: rest, name => if n = name then some t else fieldType rest name
  | .method _ _ _ :: rest, name => fieldType rest name

/-- Position of the member `name` in declaration order. -/
def memberIndex : List Member → String → Option Nat
  | [], _ => none
  | m :: rest, name =>
    if m.name = name then some 0 else (memberIndex rest name).map (· + 1)

/-- The spec's external-interface section gives this layout for
`sqlite3_tokenizer_module`:
`int iVersion; int(*xCreate)(int,const char*const*,sqlite3_tokenizer**);`
`int(*xDestroy)(sqlite3_tokenizer*);`
`int(*xOpen)(sqlite3_tokenizer*,const char*,int,sqlite3_tokenizer_cursor**);`
`int(*xClose)(sqlite3_tokenizer_cursor*);`
`int(*xNext)(sqlite3_tokenizer_cursor*,const char**,int*,int*,int*,int*);`
`int(*xLanguageid)(sqlite3_tokenizer_cursor*,int);` -/
def spec_sqlite3_tokenizer_module : List MemberSig :=
  [ .field .int "iVersion",
    .method .int "xCreate"
      [.int, .ptr (.const (.ptr (.const .char))), .ptr (.ptr (.named "sqlite3_tokenizer"))],
    .method .int "xDestroy" [.ptr (.named "sqlite3_tokenizer")],
    .method .int "xOpen"
      [.ptr (.named "sqlite3_tokenizer"), .ptr (.const .char), .int,
       .ptr (.ptr (.named "sqlite3_tokenizer_cursor"))],
    .method .int "xClose" [.ptr (.named "sqlite3_tokenizer_cursor")],
    .method .int "xNext"
      [.ptr (.named "sqlite3_tokenizer_cursor"), .ptr (.ptr (.const .char)),
       .ptr .int, .ptr .int, .ptr .int, .ptr .int],
    .method .int "xLanguageid" [.ptr (.named "sqlite3_tokenizer_cursor"), .int] ]

/-- C struct layout: members are placed in declaration order, each at the
first multiple of its alignment at or after the end of the member before it.
`alignUp off a` is that multiple. -/
def alignUp (off a : Nat) : Nat := (off + a - 1) / a * a

/-- Offsets of the members of a struct, from the offset `off` on, for a target
whose member sizes and alignments are `size` and `align`. -/
def offsetsFrom (size align : Member → Nat) : Nat → List Member → List (String × Nat)
  | _, [] => []
  | off, m :: rest =>
    (m.name, alignUp off (align m)) ::
      offsetsFrom size align (alignUp off (align m) + size m) rest

/-- Offset of the member `name` in a struct with members `ms`. -/
def offsetOf (size align : Member → Nat) (ms : List Member) (name : String) : Option Nat :=
  ((offsetsFrom size align 0 ms).find? (fun p => p.1 = name)).map (fun p => p.2)

/-- The struct tag `t` when the type is `struct t *` or `const struct t *`. -/
def pointedStruct : CType → Option String
  | .ptr (.structTag t) => some t
  | .ptr (.const (.structTag t)) => some t
  | _ => none

/-- Type of the expression `e->n1->n2...` in a translation unit that sees the
header `h`, for `e` of type `t`; `none` when some step is ill-formed (not a
pointer to a struct, struct not defined, no such data member). -/
def arrowType (h : List TopLevel) : CType → List String → Option CType
  | t, [] => some t
  | t, n :: ns =>
    match pointedStruct t with
    | none => none
    | some tag =>
      match structBody h tag with
      | none => none
      | some b =>
        match (fieldType (members b) n).bind (resolve h) with
        | none => none
        | some t1 => arrowType h t1 ns

/-- The function-pointer members of a struct: name, return type, parameters. -/
def methods : List Member → List (String × CType × List Param)
  | [] => []
  | .field _ _ :: rest => methods rest
  | .method r n ps :: rest => (n, r, ps) :: methods rest

/-- A parameter is an out-parameter when the header's comment on it starts
with "OUT:". -/
def Param.isOut (p : Param) : Bool :=
  "OUT:".toList.isPrefixOf p.comment.toList

/-- Pointer to an object that the callee may write: `T *` with `T` not
const-qualified. -/
def CType.isWritablePtr : CType → Bool
  | .ptr (.const _) => false
  | .ptr _ => true
  | _ => false

/-- The type with every pointer and `const` stripped. -/
def CType.base : CType → CType
  | .ptr t => t.base
  | .const t => t.base
  | t => t

/-- Every type written in a member list: member types, return types and
parameter types. -/
def typesUsed : List Member → List CType
  | [] => []
  | .field t _ :: rest => t :: typesUsed rest
  | .method r _ ps :: rest => r :: ps.map Param.ty ++ typesUsed rest

/-- Pairs every member with the `iVersion` from which it is available: `v`
until a divider comment of the body says otherwise. -/
def gated : Int → List BodyItem → List (Member × Int)
  | _, [] => []
  | v, .member m :: rest => (m, v) :: gated v rest
  | _, .availableFrom v :: rest => gated v rest

/-- The members of a struct body that are available in a descriptor whose
`iVersion` is `v`. -/
def availableAt (body : List BodyItem) (v : Int) : List Member :=
  ((gated 0 body).filter (fun p => decide (p.2 ≤ v))).map (fun p => p.1)

/-- The names of the operations (function-pointer members) that a descriptor
whose `iVersion` is `v` makes available to its caller. -/
def operationsAt (body : List BodyItem) (v : Int) : List String :=
  (methods (availableAt body v)).map (fun m => m.1)

/-! ## module-sqlite3-include.h -/

/-- The lines of module-sqlite3-include.h. -/
def module_sqlite3_include_h : List String :=
  [ "",
    "// modulemaps don\x27t automatically pull in SDK-relative system headers.",
    "// But if we indirect through a header file, they do!",
    "// So have the modulemap include this, which includes the system header.",
    "#include <sqlite3.h>",
    "",
    "// We also need SQLite\x27s tokenizer declarations, which the standard header does not include.",
    "#include \"SQLiteTokenizerAPI.h\"" ]

/-- Drops leading blanks. -/
def dropBlanks : List Char → List Char
  | [] => []
  | c :: cs => if c = ' ' ∨ c = '\t' then dropBlanks cs else c :: cs

/-- The rest of `cs` after the leading `p`, if `cs` starts with `p`. -/
def afterLeading (p cs : List Char) : Option (List Char) :=
  if p.isPrefixOf cs then some (cs.drop p.length) else none

/-- The file name of an include operand whose opening delimiter has been read:
the characters up to `close`, provided `close` is there and only blanks
follow it. -/
def includeOperand (close : Char) (cs : List Char) : Option String :=
  match cs.dropWhile (fun c => c ≠ close) with
  | [] => none
  | _ :: after =>
    if dropBlanks after = [] then some (String.mk (cs.takeWhile (fun c => c ≠ close)))
    else none

/-- Reads one line of a header made of line comments and preprocessor
directives: `none` for a blank line or a `//` comment, an `incl` or `define`
item for those directives, and `other` for any line it does not recognise. -/
def scanLine (s : String) : Option TopLevel :=
  let cs := dropBlanks s.toList
  if cs = [] then none
  else if "//".toList.isPrefixOf cs then none
  else
    match afterLeading "#include".toList cs with
    | some r =>
      match dropBlanks r with
      | '<' :: f => (includeOperand '>' f).elim (some (.other s)) (fun n => some (.incl true n))
      | '"' :: f => (includeOperand '"' f).elim (some (.other s)) (fun n => some (.incl false n))
      | _ => some (.other s)
    | none =>
      match afterLeading "#define".toList cs with
      | some r => some (.define (String.mk (dropBlanks r)))
      | none => some (.other s)

/-- The top-level items of a header given by its lines. -/
def scan (ls : List String) : List TopLevel := ls.filterMap scanLine

/-- The declarations visible after preprocessing: every include directive is
replaced by the items of the file it names. -/
def expand (file : Bool → String → List TopLevel) : List TopLevel → List TopLevel
  | [] => []
  | .incl a f :: rest => file a f ++ expand file rest
  | d :: rest => d :: expand file rest

/-- What the two include directives of module-sqlite3-include.h find:
`sqlite3_h` stands for the items of the system header, which is not part of
the repository. -/
def includePath (sqlite3_h : List TopLevel) (angle : Bool) (f : String) : List TopLevel :=
  if angle = true ∧ f = "sqlite3.h" then sqlite3_h
  else if angle = false ∧ f = "SQLiteTokenizerAPI.h" then SQLiteTokenizerAPI_h
  else []

/-- The names of the types a header declares: typedef names and struct tags,
each once, in order of first appearance. -/
def declaredTypes : List TopLevel → List String
  | [] => []
  | .typedef _ n :: rest => n :: (declaredTypes rest).filter (fun m => m ≠ n)
  | .structDef t _ :: rest => t :: (declaredTypes rest).filter (fun m => m ≠ t)
  | _ :: rest => declaredTypes rest

/-- A top-level item that declares a type and nothing else. -/
def TopLevel.isTypeDecl : TopLevel → Bool
  | .typedef _ _ => true
  | .structDef _ _ => true
  | _ => false

/-- A struct type is opaque to the code that sees header `h` when `h` names
it but does not define it: its members and size are then unknown there. -/
def isOpaque (h : List TopLevel) (tag : String) : Bool :=
  (structBody h tag).isNone

/-! ## The test tokenizer of the spec -/


/-- The status "SQLITE_OK (0)" of the header's comment on `xCreate`. -/
def SQLITE_OK : Int := 0
/-- Modelled from the spec: the end-of-input status `SQLITE_DONE` that the
header's comment on `xNext` names, "a distinct constant for DONE"; its value,
101, is that of the system header <sqlite3.h>, which is not in the repository. -/
def SQLITE_DONE : Int := 101

/-- Modelled from the spec: the whitespace bytes that delimit words, those of C's
`isspace` in the "C" locale: space, and tab to carriage return. -/
def isspace (c : Nat) : Bool := c == 32 || (9 ≤ c && c ≤ 13)

/-- Modelled from the spec: the cursor of the minimal test tokenizer ("one token
per whitespace-delimited word"), whose callbacks are not in the repository:
the input buffer (`pInput`, of `nBytes = pInput.length` bytes), the offset of
the next byte to read and the number of tokens returned so far.  Offsets are
natural numbers: `nBytes` is an `int`, so a buffer has fewer than 2^31 bytes
and no offset wraps. -/
structure simple_tokenizer_cursor where
  pInput : List Nat
  iOffset : Nat
  iToken : Nat
  deriving DecidableEq

/-- The values `xNext` stores through its five OUT parameters (lines 93-96): the
token bytes, their number, the start and end byte offsets and the position. -/
structure NextOut where
  ppToken : List Nat
  pnBytes : Nat
  piStartOffset : Nat
  piEndOffset : Nat
  piPosition : Nat
  deriving DecidableEq

/-- Modelled from the spec: `xOpen` of the test tokenizer, a cursor at the start
of the input buffer with no token returned yet. -/
def simple_xOpen (pInput : List Nat) : simple_tokenizer_cursor :=
  { pInput := pInput, iOffset := 0, iToken := 0 }

/-- Modelled from the spec: `xNext` of the test tokenizer, following the contract
of lines 67-97: skip whitespace, then take the bytes up to the next whitespace;
return SQLITE_DONE when no byte is left, and otherwise SQLITE_OK with the
OUT values and the cursor moved past the token. -/
def simple_xNext (c : simple_tokenizer_cursor) :
    Int × Option NextOut × simple_tokenizer_cursor :=
  let iStart := c.iOffset + ((c.pInput.drop c.iOffset).takeWhile isspace).length
  let word := ((c.pInput.drop c.iOffset).dropWhile isspace).takeWhile (fun b => !isspace b)
  match word with
  | [] => (SQLITE_DONE, none, { c with iOffset := iStart })
  | _ :: _ =>
    (SQLITE_OK,
     some { ppToken := word, pnBytes := word.length, piStartOffset := iStart,
            piEndOffset := iStart + word.length, piPosition := c.iToken },
     { c with iOffset := iStart + word.length, iToken := c.iToken + 1 })

/-- Status and OUT values of the `k`-th call of `xNext` (counting from 0) on a
cursor, each call made on the cursor the call before left. -/
def nthNext : Nat → simple_tokenizer_cursor → Int × Option NextOut
  | 0, c => ((simple_xNext c).1, (simple_xNext c).2.1)
  | k + 1, c => nthNext k (simple_xNext c).2.2

/-- The spec's "whitespace-delimited words" of a buffer, read in one pass from
offset `i` on: `cur` is the start of the word being read, if any; the result
is the list of (start, end) offsets in input order. -/
def spec_scanWords : Nat → Option Nat → List Nat → List (Nat × Nat)
  | _, none, [] => []
  | i, some s, [] => [(s, i)]
  | i, none, b :: bs =>
    if isspace b then spec_scanWords (i + 1) none bs else spec_scanWords (i + 1) (some i) bs
  | i, some s, b :: bs =>
    if isspace b then (s, i) :: spec_scanWords (i + 1) none bs else spec_scanWords (i + 1) (some s) bs

/-- The spec's whitespace-delimited words of a buffer as (start, end) offsets. -/
def spec_wordSpans (pInput : List Nat) : List (Nat × Nat) := spec_scanWords 0 none pInput

/-- The spec's "whitespace-delimited word": bytes `s` to `e - 1` of the buffer form
a word when the range is not empty, holds no whitespace, and is bounded on
each side by whitespace or by the end of the buffer. -/
def spec_IsWord (pInput : List Nat) (s e : Nat) : Prop :=
  s < e ∧ e ≤ pInput.length ∧
  (∀ i, s ≤ i → i < e → isspace (pInput.getD i 0) = false) ∧
  (s = 0 ∨ isspace (pInput.getD (s - 1) 0) = true) ∧
  (e = pInput.length ∨ isspace (pInput.getD e 0) = true)

/-- The bytes of an ASCII string. -/
def bytes (s : String) : List Nat := s.toList.map Char.toNat

/-! ## Theorems -/

/-- The first member of a struct lies at offset zero whatever its alignment. -/
theorem alignUp_zero (a : Nat) : alignUp 0 a = 0 := by
  unfold alignUp
  rcases Nat.eq_zero_or_pos a with h | h
  · subst h; simp
  · have h0 : (0 + a - 1) / a = 0 := Nat.div_eq_of_lt (by omega)
    rw [h0, Nat.zero_mul]

/-- C1: the declaration of `struct sqlite3_tokenizer_module` in the header has
exactly seven members and, with parameter names and comments erased, equals
the layout of the spec's external-interface section member for member, in the
same order and with the same types. -/
theorem C1_module_layout :
    (structBody SQLiteTokenizerAPI_h "sqlite3_tokenizer_module").map
        (fun b => (members b).map Member.sig) = some spec_sqlite3_tokenizer_module ∧
    (structBody SQLiteTokenizerAPI_h "sqlite3_tokenizer_module").map
        (fun b => (members b).length) = some 7 := by
  decide

/-- C2: `struct sqlite3_tokenizer` declares exactly one member, `pModule`, of
type pointer to const `sqlite3_tokenizer_module` (a typedef of the struct of
that name); it is the first member, and on every target (whatever the sizes
and alignments) it lies at offset zero, so no field precedes the common
prefix. -/
theorem C2_tokenizer_prefix (size align : Member → Nat) :
    (structBody SQLiteTokenizerAPI_h "sqlite3_tokenizer").map members =
      some [.field (.ptr (.const (.named "sqlite3_tokenizer_module"))) "pModule"] ∧
    (fieldType (members sqlite3_tokenizer) "pModule").bind (resolve SQLiteTokenizerAPI_h) =
      some (.ptr (.const (.structTag "sqlite3_tokenizer_module"))) ∧
    (members sqlite3_tokenizer).length = 1 ∧
    memberIndex (members sqlite3_tokenizer) "pModule" = some 0 ∧
    offsetOf size align (members sqlite3_tokenizer) "pModule" = some 0 := by
  refine ⟨by decide, by decide, by decide, by decide, ?_⟩
  simp [offsetOf, offsetsFrom, members, sqlite3_tokenizer, Member.name, alignUp_zero]

/-- C3: `struct sqlite3_tokenizer_cursor` declares exactly one member,
`pTokenizer`, of type pointer to non-const `sqlite3_tokenizer`; it is the
first member, at offset zero on every target, and from a cursor pointer the
expression `pCursor->pTokenizer` is a pointer to the tokenizer struct and
`pCursor->pTokenizer->pModule` a pointer to the (const) module descriptor. -/
theorem C3_cursor_prefix (size align : Member → Nat) :
    (structBody SQLiteTokenizerAPI_h "sqlite3_tokenizer_cursor").map members =
      some [.field (.ptr (.named "sqlite3_tokenizer")) "pTokenizer"] ∧
    (fieldType (members sqlite3_tokenizer_cursor) "pTokenizer").bind
        (resolve SQLiteTokenizerAPI_h) = some (.ptr (.structTag "sqlite3_tokenizer")) ∧
    (members sqlite3_tokenizer_cursor).length = 1 ∧
    memberIndex (members sqlite3_tokenizer_cursor) "pTokenizer" = some 0 ∧
    offsetOf size align (members sqlite3_tokenizer_cursor) "pTokenizer" = some 0 ∧
    arrowType SQLiteTokenizerAPI_h (.ptr (.structTag "sqlite3_tokenizer_cursor"))
        ["pTokenizer"] = some (.ptr (.structTag "sqlite3_tokenizer")) ∧
    arrowType SQLiteTokenizerAPI_h (.ptr (.structTag "sqlite3_tokenizer_cursor"))
        ["pTokenizer", "pModule"] =
      some (.ptr (.const (.structTag "sqlite3_tokenizer_module"))) := by
  refine ⟨by decide, by decide, by decide, by decide, ?_, by decide, by decide⟩
  simp [offsetOf, offsetsFrom, members, sqlite3_tokenizer_cursor, Member.name, alignUp_zero]

/-- C4: each of the six operations of the module descriptor returns `int`;
the parameters the header marks "OUT:" are exactly ppTokenizer, ppCursor,
ppToken, pnBytes, piStartOffset, piEndOffset and piPosition, and each is a
pointer to a writable object; every type written in the struct is built from
`int`, `char` and the tokenizer and cursor structs only, so no member or
parameter has an error-object type; and the header declares no object or
function that could carry an error beside the returned status. -/
theorem C4_status_is_the_only_error_channel :
    (methods (members sqlite3_tokenizer_module)).map (fun m => m.1) =
      ["xCreate", "xDestroy", "xOpen", "xClose", "xNext", "xLanguageid"] ∧
    (∀ m ∈ methods (members sqlite3_tokenizer_module), m.2.1 = CType.int) ∧
    (methods (members sqlite3_tokenizer_module)).map
        (fun m => (m.1, (m.2.2.filter Param.isOut).map Param.name)) =
      [("xCreate", ["ppTokenizer"]), ("xDestroy", []), ("xOpen", ["ppCursor"]),
       ("xClose", []),
       ("xNext", ["ppToken", "pnBytes", "piStartOffset", "piEndOffset", "piPosition"]),
       ("xLanguageid", [])] ∧
    (∀ m ∈ methods (members sqlite3_tokenizer_module), ∀ q ∈ m.2.2,
      q.isOut = true → q.ty.isWritablePtr = true) ∧
    (∀ t ∈ typesUsed (members sqlite3_tokenizer_module),
      (resolve SQLiteTokenizerAPI_h t).map CType.base ∈
        [some CType.int, some CType.char, some (CType.structTag "sqlite3_tokenizer"),
         some (CType.structTag "sqlite3_tokenizer_cursor")]) ∧
    (∀ d ∈ SQLiteTokenizerAPI_h, d.isTypeDecl = true) := by
  refine ⟨by decide, by decide, by decide, by decide, by decide, by decide⟩

/-- C5: `xLanguageid` is the last member of `sqlite3_tokenizer_module` and the
only member below the divider "only available if iVersion>=1"; `iVersion`,
`xCreate`, `xDestroy`, `xOpen`, `xClose` and `xNext` precede it and are
available from version 0; a descriptor with `iVersion` 0 makes exactly the
five operations xCreate, xDestroy, xOpen, xClose, xNext available, so
`xLanguageid` is not among the operations its caller may invoke, while from
version 1 on all six are. -/
theorem C5_xLanguageid_gated :
    ((members sqlite3_tokenizer_module).map Member.name).getLast? = some "xLanguageid" ∧
    (members sqlite3_tokenizer_module).map Member.name =
      ["iVersion", "xCreate", "xDestroy", "xOpen", "xClose", "xNext", "xLanguageid"] ∧
    (gated 0 sqlite3_tokenizer_module).map (fun q => (q.1.name, q.2)) =
      [("iVersion", 0), ("xCreate", 0), ("xDestroy", 0), ("xOpen", 0), ("xClose", 0),
       ("xNext", 0), ("xLanguageid", 1)] ∧
    operationsAt sqlite3_tokenizer_module 0 =
      ["xCreate", "xDestroy", "xOpen", "xClose", "xNext"] ∧
    "xLanguageid" ∉ operationsAt sqlite3_tokenizer_module 0 ∧
    (∀ v : Int, 1 ≤ v → operationsAt sqlite3_tokenizer_module v =
      ["xCreate", "xDestroy", "xOpen", "xClose", "xNext", "xLanguageid"]) ∧
    (∀ v : Int, 0 ≤ v → ∀ n ∈ ["xCreate", "xDestroy", "xOpen", "xClose", "xNext"],
      n ∈ operationsAt sqlite3_tokenizer_module v) := by
  refine ⟨by decide, by decide, by decide, by decide, by decide, ?_, ?_⟩
  · intro v hv
    have h0 : (0 : Int) ≤ v := by omega
    simp [operationsAt, availableAt, gated, sqlite3_tokenizer_module, methods, h0, hv]
  · intro v hv n hn
    by_cases h1 : (1 : Int) ≤ v
    · simp [operationsAt, availableAt, gated, sqlite3_tokenizer_module, methods, hv, h1]
      simp at hn
      tauto
    · simp [operationsAt, availableAt, gated, sqlite3_tokenizer_module, methods, hv, h1]
      simpa using hn

/-- C5 at `iVersion` 1: all six operations are available. -/
theorem C5_xLanguageid_gated_witness :
    operationsAt sqlite3_tokenizer_module 1 =
      ["xCreate", "xDestroy", "xOpen", "xClose", "xNext", "xLanguageid"] :=
  C5_xLanguageid_gated.2.2.2.2.2.1 1 (by decide)

/-- C6: module-sqlite3-include.h, read line by line, holds exactly two items
beside blank lines and comments: `#include <sqlite3.h>` first and
`#include "SQLiteTokenizerAPI.h"` second; it has no definition of its own, and
whatever the system header declares, the declarations visible after including
it are those of the system header followed by those of SQLiteTokenizerAPI.h. -/
theorem C6_aggregation_header (sqlite3_h : List TopLevel) :
    scan module_sqlite3_include_h =
      [.incl true "sqlite3.h", .incl false "SQLiteTokenizerAPI.h"] ∧
    (scan module_sqlite3_include_h).length = 2 ∧
    expand (includePath sqlite3_h) (scan module_sqlite3_include_h) =
      sqlite3_h ++ SQLiteTokenizerAPI_h ∧
    (∀ d ∈ expand (includePath sqlite3_h) (scan module_sqlite3_include_h),
      d ∈ sqlite3_h ∨ d ∈ SQLiteTokenizerAPI_h) := by
  have hs : scan module_sqlite3_include_h =
      [.incl true "sqlite3.h", .incl false "SQLiteTokenizerAPI.h"] := by decide
  have he : expand (includePath sqlite3_h) (scan module_sqlite3_include_h) =
      sqlite3_h ++ SQLiteTokenizerAPI_h := by
    rw [hs]
    simp [expand, includePath]
  refine ⟨hs, by rw [hs]; rfl, he, ?_⟩
  intro d hd
  rw [he] at hd
  exact List.mem_append.mp hd

/-- Dropping as many elements as `takeWhile` takes leaves what `dropWhile` leaves. -/
theorem drop_takeWhile_length (p : Nat → Bool) (l : List Nat) :
    l.drop (l.takeWhile p).length = l.dropWhile p := by
  induction l with
  | nil => rfl
  | cons b bs ih =>
    by_cases h : p b = true
    · simp [List.takeWhile_cons, List.dropWhile_cons, h, ih]
    · simp [List.takeWhile_cons, List.dropWhile_cons, h]

/-- Taking as many elements as `takeWhile` takes gives what `takeWhile` gives. -/
theorem take_takeWhile_length (p : Nat → Bool) (l : List Nat) :
    l.take (l.takeWhile p).length = l.takeWhile p := by
  induction l with
  | nil => rfl
  | cons b bs ih =>
    by_cases h : p b = true
    · simp [List.takeWhile_cons, h, ih]
    · simp [List.takeWhile_cons, h]

/-- Between words the scan skips the leading whitespace. -/
theorem scanWords_none_skip (i : Nat) (rest : List Nat) :
    spec_scanWords i none rest =
      spec_scanWords (i + (rest.takeWhile isspace).length) none (rest.dropWhile isspace) := by
  induction rest generalizing i with
  | nil => rfl
  | cons b bs ih =>
    by_cases h : isspace b = true
    · simp only [spec_scanWords, h, if_true, List.takeWhile_cons, List.dropWhile_cons,
        List.length_cons]
      rw [ih (i + 1)]
      congr 1
      omega
    · simp [spec_scanWords, h, List.takeWhile_cons, List.dropWhile_cons]

/-- Inside a word the scan reads up to the next whitespace byte and closes the word
there. -/
theorem scanWords_some_word (i s0 : Nat) (rest : List Nat) :
    spec_scanWords i (some s0) rest =
      (s0, i + (rest.takeWhile (fun b => !isspace b)).length) ::
        spec_scanWords (i + (rest.takeWhile (fun b => !isspace b)).length) none
          (rest.drop (rest.takeWhile (fun b => !isspace b)).length) := by
  induction rest generalizing i with
  | nil => rfl
  | cons b bs ih =>
    by_cases h : isspace b = true
    · simp [spec_scanWords, h, List.takeWhile_cons]
    · simp only [Bool.not_eq_true] at h
      simp only [spec_scanWords, h, List.takeWhile_cons, Bool.not_false, if_true,
        List.length_cons, List.drop_succ_cons, Bool.false_eq_true, if_false]
      rw [ih (i + 1)]
      have e : i + 1 + (bs.takeWhile (fun b => !isspace b)).length =
          i + ((bs.takeWhile (fun b => !isspace b)).length + 1) := by omega
      rw [e]

/-- The first element that `dropWhile` keeps fails the test. -/
theorem dropWhile_head_false (p : Nat → Bool) (l : List Nat) (b : Nat) (bs : List Nat)
    (h : l.dropWhile p = b :: bs) : p b = false := by
  induction l with
  | nil => simp at h
  | cons a as ih =>
    by_cases ha : p a = true
    · rw [List.dropWhile_cons, if_pos ha] at h
      exact ih h
    · rw [List.dropWhile_cons, if_neg ha] at h
      injection h with h1 h2
      subst h1
      simpa using ha

/-- When only whitespace is left after offset `o`, no word starts at or after `o`. -/
theorem scanWords_step_done (pInput : List Nat) (o : Nat)
    (h : ((pInput.drop o).dropWhile isspace).takeWhile (fun b => !isspace b) = []) :
    spec_scanWords o none (pInput.drop o) = [] := by
  rw [scanWords_none_skip]
  cases hr : (pInput.drop o).dropWhile isspace with
  | nil => rfl
  | cons b bs =>
    have hb := dropWhile_head_false isspace _ b bs hr
    rw [hr] at h
    simp [List.takeWhile_cons, hb] at h

/-- When a word `w` follows the whitespace after offset `o`, it is the first word
of the scan from `o`, and the scan goes on from its end. -/
theorem scanWords_step_ok (pInput : List Nat) (o : Nat) (w : List Nat)
    (hw : ((pInput.drop o).dropWhile isspace).takeWhile (fun b => !isspace b) = w)
    (hne : w ≠ []) :
    spec_scanWords o none (pInput.drop o) =
      (o + ((pInput.drop o).takeWhile isspace).length,
        o + ((pInput.drop o).takeWhile isspace).length + w.length) ::
      spec_scanWords (o + ((pInput.drop o).takeWhile isspace).length + w.length) none
        (pInput.drop (o + ((pInput.drop o).takeWhile isspace).length + w.length)) := by
  rw [scanWords_none_skip]
  have hd := drop_takeWhile_length isspace (pInput.drop o)
  rw [List.drop_drop] at hd
  cases hr : (pInput.drop o).dropWhile isspace with
  | nil => rw [hr] at hw; simp at hw; exact absurd hw.symm hne.symm |> False.elim
  | cons b bs =>
    have hb := dropWhile_head_false isspace _ b bs hr
    rw [hr] at hw hd
    simp only [List.takeWhile_cons, hb, Bool.not_false, if_true] at hw
    subst hw
    simp only [spec_scanWords, hb, Bool.false_eq_true, if_false]
    rw [scanWords_some_word]
    have hbs : bs = pInput.drop (o + ((pInput.drop o).takeWhile isspace).length + 1) := by
      have := congrArg (List.drop 1) hd
      rw [List.drop_drop] at this
      simp only [List.drop_succ_cons, List.drop_zero] at this
      rw [← this]
    have hdd : ∀ n, bs.drop n =
        pInput.drop (o + ((pInput.drop o).takeWhile isspace).length + (n + 1)) := by
      intro n
      rw [hbs, List.drop_drop]
      congr 1
      omega
    simp only [List.length_cons]
    rw [hdd]
    have e : ∀ n, o + ((pInput.drop o).takeWhile isspace).length + 1 + n =
        o + ((pInput.drop o).takeWhile isspace).length + (n + 1) := by intro n; omega
    rw [e]

/-- The call `xNext` returns SQLITE_DONE when only whitespace is left. -/
theorem simple_xNext_done (c : simple_tokenizer_cursor)
    (h : ((c.pInput.drop c.iOffset).dropWhile isspace).takeWhile (fun b => !isspace b) = []) :
    simple_xNext c = (SQLITE_DONE, none,
      { c with iOffset := c.iOffset + ((c.pInput.drop c.iOffset).takeWhile isspace).length }) := by
  simp only [simple_xNext, h]

/-- The call `xNext` returns the word that follows the whitespace, if there is one. -/
theorem simple_xNext_ok (c : simple_tokenizer_cursor) (w : List Nat)
    (hw : ((c.pInput.drop c.iOffset).dropWhile isspace).takeWhile (fun b => !isspace b) = w)
    (hne : w ≠ []) :
    simple_xNext c = (SQLITE_OK,
      some { ppToken := w, pnBytes := w.length,
             piStartOffset := c.iOffset + ((c.pInput.drop c.iOffset).takeWhile isspace).length,
             piEndOffset :=
               c.iOffset + ((c.pInput.drop c.iOffset).takeWhile isspace).length + w.length,
             piPosition := c.iToken },
      { c with
        iOffset := c.iOffset + ((c.pInput.drop c.iOffset).takeWhile isspace).length + w.length,
        iToken := c.iToken + 1 }) := by
  cases w with
  | nil => exact absurd rfl hne
  | cons b bs => simp only [simple_xNext, hw]

/-- From a cursor at offset `o` with `t` tokens returned, the `k`-th call returns
the `k`-th word of the scan from `o`, with position `t + k`. -/
theorem nthNext_span (pInput : List Nat) (k : Nat) :
    ∀ (o t s e : Nat), (spec_scanWords o none (pInput.drop o))[k]? = some (s, e) →
      nthNext k { pInput := pInput, iOffset := o, iToken := t } =
        (SQLITE_OK, some { ppToken := (pInput.drop s).take (e - s), pnBytes := e - s,
                           piStartOffset := s, piEndOffset := e, piPosition := t + k }) := by
  induction k with
  | zero =>
    intro o t s e h
    by_cases hw : ((pInput.drop o).dropWhile isspace).takeWhile (fun b => !isspace b) = []
    · rw [scanWords_step_done pInput o hw] at h
      simp at h
    · rw [scanWords_step_ok pInput o _ rfl hw] at h
      simp only [List.getElem?_cons_zero, Option.some.injEq, Prod.mk.injEq] at h
      obtain ⟨hs, he⟩ := h
      have hx := simple_xNext_ok { pInput := pInput, iOffset := o, iToken := t } _ rfl hw
      simp only [nthNext, hx]
      have hd := drop_takeWhile_length isspace (pInput.drop o)
      rw [List.drop_drop] at hd
      subst hs
      subst he
      simp only [Nat.add_sub_cancel_left, Nat.add_zero]
      rw [hd, take_takeWhile_length]
  | succ k ih =>
    intro o t s e h
    by_cases hw : ((pInput.drop o).dropWhile isspace).takeWhile (fun b => !isspace b) = []
    · rw [scanWords_step_done pInput o hw] at h
      simp at h
    · rw [scanWords_step_ok pInput o _ rfl hw] at h
      simp only [List.getElem?_cons_succ] at h
      have hx := simple_xNext_ok { pInput := pInput, iOffset := o, iToken := t } _ rfl hw
      simp only [nthNext, hx]
      rw [ih _ (t + 1) s e h]
      have e1 : t + 1 + k = t + (k + 1) := by omega
      rw [e1]

/-- The call after the last word of the scan returns SQLITE_DONE. -/
theorem nthNext_done (pInput : List Nat) (k : Nat) :
    ∀ (o t : Nat), (spec_scanWords o none (pInput.drop o)).length = k →
      nthNext k { pInput := pInput, iOffset := o, iToken := t } = (SQLITE_DONE, none) := by
  induction k with
  | zero =>
    intro o t h
    by_cases hw : ((pInput.drop o).dropWhile isspace).takeWhile (fun b => !isspace b) = []
    · have hx := simple_xNext_done { pInput := pInput, iOffset := o, iToken := t } hw
      simp only [nthNext, hx]
    · rw [scanWords_step_ok pInput o _ rfl hw] at h
      simp at h
  | succ k ih =>
    intro o t h
    by_cases hw : ((pInput.drop o).dropWhile isspace).takeWhile (fun b => !isspace b) = []
    · rw [scanWords_step_done pInput o hw] at h
      simp at h
    · rw [scanWords_step_ok pInput o _ rfl hw] at h
      simp only [List.length_cons, Nat.add_right_cancel_iff] at h
      have hx := simple_xNext_ok { pInput := pInput, iOffset := o, iToken := t } _ rfl hw
      simp only [nthNext, hx]
      exact ih _ (t + 1) h

/-- What `l.drop i = b :: bs` says about index `i` of `l`. -/
theorem drop_eq_cons_info (l : List Nat) (i b : Nat) (bs : List Nat) (h : l.drop i = b :: bs) :
    i < l.length ∧ l.getD i 0 = b ∧ l.drop (i + 1) = bs := by
  have hi : i < l.length := by
    by_contra hn
    have : l.drop i = [] := List.drop_eq_nil_of_le (by omega)
    rw [this] at h
    exact List.noConfusion h
  rw [List.drop_eq_getElem_cons hi] at h
  injection h with h1 h2
  refine ⟨hi, ?_, h2⟩
  rw [List.getD_eq_getElem?_getD, List.getElem?_eq_getElem hi]
  simpa using h1

/-- The scan from offset `i`, between words or inside the word that began at `s0`,
lists exactly the words of the buffer that start at or after `i`, or `s0`. -/
theorem mem_scanWords (pInput : List Nat) (rest : List Nat) :
    ∀ i : Nat, pInput.drop i = rest → i ≤ pInput.length →
      ((i = 0 ∨ isspace (pInput.getD (i - 1) 0) = true) →
        ∀ s e, (s, e) ∈ spec_scanWords i none rest ↔ (i ≤ s ∧ spec_IsWord pInput s e)) ∧
      (∀ s0, s0 < i → (∀ j, s0 ≤ j → j < i → isspace (pInput.getD j 0) = false) →
        (s0 = 0 ∨ isspace (pInput.getD (s0 - 1) 0) = true) →
        ∀ s e, (s, e) ∈ spec_scanWords i (some s0) rest ↔ (s0 ≤ s ∧ spec_IsWord pInput s e)) := by
  induction rest with
  | nil =>
    intro i hdrop hle
    have hlen : pInput.length ≤ i := List.drop_eq_nil_iff.mp hdrop
    have hi : i = pInput.length := by omega
    refine ⟨?_, ?_⟩
    · intro _ s e
      constructor
      · intro h; simp [spec_scanWords] at h
      · rintro ⟨his, hse, hel, _⟩; omega
    · intro s0 hs0 hns hleft s e
      simp only [spec_scanWords, List.mem_singleton, Prod.mk.injEq]
      constructor
      · rintro ⟨rfl, rfl⟩
        exact ⟨le_refl _, hs0, hle, hns, hleft, Or.inl hi⟩
      · rintro ⟨hs, hse, hel, hw, hl, hr⟩
        have h1 : s = s0 := by
          by_contra hne
          have hlt : s0 < s := by omega
          rcases hl with hl | hl
          · omega
          · have := hns (s - 1) (by omega) (by omega)
            rw [this] at hl
            exact Bool.noConfusion hl
        subst h1
        refine ⟨rfl, ?_⟩
        by_contra hne
        have hlt : e < i := by omega
        rcases hr with hr | hr
        · omega
        · have := hns e (by omega) hlt
          rw [this] at hr
          exact Bool.noConfusion hr
  | cons b bs ih =>
    intro i hdrop hle
    obtain ⟨hi, hb, hd⟩ := drop_eq_cons_info pInput i b bs hdrop
    obtain ⟨ihn, ihs⟩ := ih (i + 1) hd (by omega)
    refine ⟨?_, ?_⟩
    · intro hpre s e
      by_cases hsp : isspace b = true
      · simp only [spec_scanWords, hsp, if_true]
        rw [ihn (Or.inr (by rw [Nat.add_sub_cancel, hb]; exact hsp)) s e]
        constructor
        · rintro ⟨h1, h2⟩; exact ⟨by omega, h2⟩
        · rintro ⟨h1, h2⟩
          refine ⟨?_, h2⟩
          by_contra hne
          have hsi : s = i := by omega
          obtain ⟨hse, _, hw, _, _⟩ := h2
          have := hw i (by omega) (by omega)
          rw [hb, hsp] at this
          exact Bool.noConfusion this
      · have hsp2 : isspace b = false := by simpa using hsp
        simp only [spec_scanWords, hsp2, Bool.false_eq_true, if_false]
        refine ihs i (by omega) ?_ hpre s e
        intro j hj1 hj2
        have : j = i := by omega
        subst this
        rw [hb]; exact hsp2
    · intro s0 hs0 hns hleft s e
      by_cases hsp : isspace b = true
      · simp only [spec_scanWords, hsp, if_true, List.mem_cons, Prod.mk.injEq]
        rw [ihn (Or.inr (by rw [Nat.add_sub_cancel, hb]; exact hsp)) s e]
        constructor
        · rintro (⟨rfl, rfl⟩ | ⟨h1, h2⟩)
          · exact ⟨le_refl _, hs0, by omega, hns, hleft, Or.inr (by rw [hb]; exact hsp)⟩
          · exact ⟨by omega, h2⟩
        · rintro ⟨hs, hword⟩
          obtain ⟨hse, hel, hw, hl, hr⟩ := hword
          by_cases hgt : i + 1 ≤ s
          · exact Or.inr ⟨hgt, hse, hel, hw, hl, hr⟩
          · left
            have hsi : s ≠ i := by
              intro h
              have := hw i (by omega) (by omega)
              rw [hb, hsp] at this
              exact Bool.noConfusion this
            have h1 : s = s0 := by
              by_contra hne
              rcases hl with hl | hl
              · omega
              · have := hns (s - 1) (by omega) (by omega)
                rw [this] at hl
                exact Bool.noConfusion hl
            subst h1
            refine ⟨rfl, ?_⟩
            by_contra hne
            rcases Nat.lt_or_gt_of_ne hne with hlt | hgt2
            · rcases hr with hr | hr
              · omega
              · have := hns e (by omega) hlt
                rw [this] at hr
                exact Bool.noConfusion hr
            · have := hw i (by omega) hgt2
              rw [hb, hsp] at this
              exact Bool.noConfusion this
      · have hsp2 : isspace b = false := by simpa using hsp
        simp only [spec_scanWords, hsp2, Bool.false_eq_true, if_false]
        refine ihs s0 (by omega) ?_ hleft s e
        intro j hj1 hj2
        by_cases hji : j = i
        · subst hji; rw [hb]; exact hsp2
        · exact hns j hj1 (by omega)

/-- The scan of a buffer lists exactly its whitespace-delimited words. -/
theorem mem_wordSpans (pInput : List Nat) (s e : Nat) :
    (s, e) ∈ spec_wordSpans pInput ↔ spec_IsWord pInput s e := by
  have h := (mem_scanWords pInput pInput 0 rfl (Nat.zero_le _)).1 (Or.inl rfl) s e
  unfold spec_wordSpans
  rw [h]
  constructor
  · exact fun h => h.2
  · exact fun h => ⟨Nat.zero_le _, h⟩

/-- Every word of a scan from offset `i` starts at or after `i`, but for the word
being read. -/
theorem scanWords_start_bound (rest : List Nat) :
    ∀ i : Nat, (∀ q ∈ spec_scanWords i none rest, i ≤ q.1) ∧
      (∀ s0, ∀ q ∈ spec_scanWords i (some s0) rest, q.1 = s0 ∨ i ≤ q.1) := by
  induction rest with
  | nil =>
    intro i
    refine ⟨?_, ?_⟩
    · intro q hq; simp [spec_scanWords] at hq
    · intro s0 q hq
      simp only [spec_scanWords, List.mem_singleton] at hq
      subst hq
      exact Or.inl rfl
  | cons b bs ih =>
    intro i
    obtain ⟨ihn, ihs⟩ := ih (i + 1)
    refine ⟨?_, ?_⟩
    · intro q hq
      by_cases hsp : isspace b = true
      · simp only [spec_scanWords, hsp, if_true] at hq
        have := ihn q hq
        omega
      · have hsp2 : isspace b = false := by simpa using hsp
        simp only [spec_scanWords, hsp2, Bool.false_eq_true, if_false] at hq
        rcases ihs i q hq with h | h <;> omega
    · intro s0 q hq
      by_cases hsp : isspace b = true
      · simp only [spec_scanWords, hsp, if_true, List.mem_cons] at hq
        rcases hq with hq | hq
        · subst hq; exact Or.inl rfl
        · have := ihn q hq
          right; omega
      · have hsp2 : isspace b = false := by simpa using hsp
        simp only [spec_scanWords, hsp2, Bool.false_eq_true, if_false] at hq
        rcases ihs s0 q hq with h | h
        · exact Or.inl h
        · right; omega

/-- The words of a scan come in input order, each ending before the next starts. -/
theorem scanWords_pairwise (rest : List Nat) :
    ∀ i : Nat, (spec_scanWords i none rest).Pairwise (fun a b => a.2 < b.1) ∧
      (∀ s0, (spec_scanWords i (some s0) rest).Pairwise (fun a b => a.2 < b.1)) := by
  induction rest with
  | nil =>
    intro i
    exact ⟨by simp [spec_scanWords], fun s0 => by simp [spec_scanWords]⟩
  | cons b bs ih =>
    intro i
    obtain ⟨ihn, ihs⟩ := ih (i + 1)
    refine ⟨?_, ?_⟩
    · by_cases hsp : isspace b = true
      · simp only [spec_scanWords, hsp, if_true]; exact ihn
      · have hsp2 : isspace b = false := by simpa using hsp
        simp only [spec_scanWords, hsp2, Bool.false_eq_true, if_false]; exact ihs i
    · intro s0
      by_cases hsp : isspace b = true
      · simp only [spec_scanWords, hsp, if_true, List.pairwise_cons]
        refine ⟨?_, ihn⟩
        intro q hq
        have := (scanWords_start_bound bs (i + 1)).1 q hq
        show i < q.1
        omega
      · have hsp2 : isspace b = false := by simpa using hsp
        simp only [spec_scanWords, hsp2, Bool.false_eq_true, if_false]; exact ihs s0

/-- C7 (spec-modelled): for the tokenizer that emits one token per
whitespace-delimited word and for every input buffer, the words of the buffer
(`spec_wordSpans`, which are exactly the ranges that `spec_IsWord` describes,
listed in input order and separated from each other) are what repeated
`xNext` calls return: the k-th call, counting from 0, returns SQLITE_OK with
position k, the start offset of the k-th word, its end offset (the first byte
past it) and its bytes, and the call after the last word returns SQLITE_DONE;
on "alpha beta gamma" the calls give "alpha" (0, 5, position 0), "beta"
(6, 10, position 1), "gamma" (11, 16, position 2) and then SQLITE_DONE. -/
theorem C7_xNext_yields_words (pInput : List Nat) :
    (∀ s e, (s, e) ∈ spec_wordSpans pInput ↔ spec_IsWord pInput s e) ∧
    (spec_wordSpans pInput).Pairwise (fun a b => a.2 < b.1) ∧
    (∀ k s e, (spec_wordSpans pInput)[k]? = some (s, e) →
      nthNext k (simple_xOpen pInput) =
        (SQLITE_OK, some { ppToken := (pInput.drop s).take (e - s), pnBytes := e - s,
                           piStartOffset := s, piEndOffset := e, piPosition := k })) ∧
    nthNext (spec_wordSpans pInput).length (simple_xOpen pInput) = (SQLITE_DONE, none) ∧
    nthNext 0 (simple_xOpen (bytes "alpha beta gamma")) =
      (SQLITE_OK, some { ppToken := bytes "alpha", pnBytes := 5, piStartOffset := 0,
                         piEndOffset := 5, piPosition := 0 }) ∧
    nthNext 1 (simple_xOpen (bytes "alpha beta gamma")) =
      (SQLITE_OK, some { ppToken := bytes "beta", pnBytes := 4, piStartOffset := 6,
                         piEndOffset := 10, piPosition := 1 }) ∧
    nthNext 2 (simple_xOpen (bytes "alpha beta gamma")) =
      (SQLITE_OK, some { ppToken := bytes "gamma", pnBytes := 5, piStartOffset := 11,
                         piEndOffset := 16, piPosition := 2 }) ∧
    nthNext 3 (simple_xOpen (bytes "alpha beta gamma")) = (SQLITE_DONE, none) := by
  refine ⟨mem_wordSpans pInput, (scanWords_pairwise pInput 0).1, ?_, ?_,
    by decide, by decide, by decide, by decide⟩
  · intro k s e h
    have := nthNext_span pInput k 0 0 s e (by simpa [spec_wordSpans] using h)
    simpa [simple_xOpen] using this
  · have := nthNext_done pInput (spec_wordSpans pInput).length 0 0 (by simp [spec_wordSpans])
    simpa [simple_xOpen] using this

/-- C7 at the buffer "a  bc": the call number 1 returns the word at offsets 3 to 5. -/
theorem C7_xNext_yields_words_witness :
    nthNext 1 (simple_xOpen (bytes "a  bc")) =
      (SQLITE_OK, some { ppToken := [98, 99], pnBytes := 2, piStartOffset := 3,
                         piEndOffset := 5, piPosition := 1 }) :=
  (C7_xNext_yields_words (bytes "a  bc")).2.2.1 1 3 5 (by decide)

/-- C9 as stated fails: the header does declare exactly three types and
nothing else, but none of them is opaque, each has its struct definition in
the header. -/
theorem C9_not_opaque :
    ¬ ((∀ d ∈ SQLiteTokenizerAPI_h, d.isTypeDecl = true) ∧
       declaredTypes SQLiteTokenizerAPI_h =
         ["sqlite3_tokenizer_module", "sqlite3_tokenizer", "sqlite3_tokenizer_cursor"] ∧
       (∀ n ∈ declaredTypes SQLiteTokenizerAPI_h, isOpaque SQLiteTokenizerAPI_h n = true)) := by
  decide

/-- C9 amended: the header declares exactly three types
(sqlite3_tokenizer_module, sqlite3_tokenizer, sqlite3_tokenizer_cursor) and
nothing else (no function, object or macro, no include); none of the three is
opaque: the header defines each struct and so fixes its members, seven for
the module descriptor and the one-pointer common prefix for the tokenizer and
for the cursor. -/
theorem C9_three_defined_types :
    (∀ d ∈ SQLiteTokenizerAPI_h, d.isTypeDecl = true) ∧
    declaredTypes SQLiteTokenizerAPI_h =
      ["sqlite3_tokenizer_module", "sqlite3_tokenizer", "sqlite3_tokenizer_cursor"] ∧
    (∀ n ∈ declaredTypes SQLiteTokenizerAPI_h, isOpaque SQLiteTokenizerAPI_h n = false) ∧
    (declaredTypes SQLiteTokenizerAPI_h).map
        (fun n => (structBody SQLiteTokenizerAPI_h n).map (fun b => (members b).length)) =
      [some 7, some 1, some 1] := by
  refine ⟨by decide, by decide, by decide, by decide⟩

end PLRelational
